import Mathlib

/-!
Shallow embedding of the HVAC dashboard's aggregation pipeline (src/app.py).

The script loads one CSV into a pandas DataFrame, derives calendar fields from
the `timestamp` column (app.py lines 14-18), and each "page" computes grouped
aggregates from that frame (KPI tiles, zone totals, monthly trend, occupancy
heatmap, setpoint time series, forecast error table, daily rolling summary,
zoning-mode counts).  Rows are lists of records; pandas NaN in the
`adjusted_setpoint` column is `Option.none`; a column that some pages append
(`time_group`, `prediction_error`, `date`, ...) is an `Option` field that the
corresponding step sets.  Rationals stand for the float columns, so grouped
sums and means are exact.

pandas semantics embedded here:
* `groupby(k)[c].agg(f)` returns one row per distinct key, keys sorted
  ascending (`sort=True` default);
* `sort_values(by=c, ascending=False)` argsorts ascending (stably on small
  inputs) and reverses the permutation (pandas `nargsort`), so it is modelled
  as a stable ascending sort followed by `List.reverse`;
* boolean-series `.mean()` is (count of True) / (length), and comparing NaN
  with `>=`/`<=` yields False;
* `pivot_table(index=d, columns=h, values=v, aggfunc=mean)` has exactly the
  observed column keys sorted ascending, and `reindex(days_order)` rebuilds
  the row index to the fixed weekday list with all-missing rows for absent
  days;
* `dt.floor("H")` zeroes minutes/seconds, `dt.floor("D")` also zeroes hours;
* `dt.to_period("M").astype(str)` renders "YYYY-MM" (zero-padded, 4-digit
  years), `dt.day_name()` the full English weekday name.
-/

namespace HVAC

/-- Calendar timestamp, the parsed value of the `timestamp` CSV column. -/
structure Timestamp where
  year : Nat
  month : Nat
  day : Nat
  hour : Nat
  minute : Nat
  second : Nat
  deriving DecidableEq, Repr

/-- Calendar date, the value `dt.date` produces (app.py line 323). -/
structure Date where
  year : Nat
  month : Nat
  day : Nat
  deriving DecidableEq, Repr

/-- One CSV record plus the derived columns pages append; a derived field is
`none` until the step that writes that column has run.  `adjusted_setpoint`
is `Option` because the comfort-compliance claims concern NaN entries. -/
structure Row where
  timestamp : Timestamp
  zone_id : String
  zone_type : String
  zone_function : String
  zoning_mode : String
  occupancy_pct : Rat
  occupancy_count : Nat
  standard_setpoint : Rat
  adjusted_setpoint : Option Rat
  actual_cooling_load_kWh : Rat
  baseline_cooling_load : Rat
  optimized_cooling_load_kWh : Rat
  predicted_cooling_load_kWh : Rat
  rolling_avg_occupancy_3h : Rat
  rolling_max_occupancy_6h : Rat
  hour : Option Nat := none
  day_of_week : Option String := none
  month_year : Option String := none
  date : Option Date := none
  time_group : Option Timestamp := none
  prediction_error : Option Rat := none
  deriving DecidableEq, Repr

/-- The source (CSV-supplied) fields of a record: everything except the
derived columns the pipeline appends. -/
structure SourceFields where
  timestamp : Timestamp
  zone_id : String
  zone_type : String
  zone_function : String
  zoning_mode : String
  occupancy_pct : Rat
  occupancy_count : Nat
  standard_setpoint : Rat
  adjusted_setpoint : Option Rat
  actual_cooling_load_kWh : Rat
  baseline_cooling_load : Rat
  optimized_cooling_load_kWh : Rat
  predicted_cooling_load_kWh : Rat
  rolling_avg_occupancy_3h : Rat
  rolling_max_occupancy_6h : Rat
  deriving DecidableEq, Repr

/-- Projection of a row onto its source fields. -/
def sourceOf (r : Row) : SourceFields :=
  ⟨r.timestamp, r.zone_id, r.zone_type, r.zone_function, r.zoning_mode,
   r.occupancy_pct, r.occupancy_count, r.standard_setpoint, r.adjusted_setpoint,
   r.actual_cooling_load_kWh, r.baseline_cooling_load, r.optimized_cooling_load_kWh,
   r.predicted_cooling_load_kWh, r.rolling_avg_occupancy_3h, r.rolling_max_occupancy_6h⟩

/-! ## Calendar arithmetic (`dt.dayofweek`, `dt.day_name()`, `dt.to_period("M")`) -/

/-- Days since 1970-01-01 in the proleptic Gregorian calendar (the civil
calendar day-number computation pandas' datetime arithmetic performs). -/
def daysFromCivil (y m d : Int) : Int :=
  let y2 : Int := if m ≤ 2 then y - 1 else y
  let era : Int := y2 / 400
  let yoe : Int := y2 - era * 400
  let doy : Int := (153 * ((m + 9) % 12) + 2) / 5 + d - 1
  let doe : Int := yoe * 365 + yoe / 4 - yoe / 100 + doy
  era * 146097 + doe - 719468

/-- pandas `dt.dayofweek`: Monday = 0 .. Sunday = 6. -/
def dayOfWeekIndex (t : Timestamp) : Nat :=
  ((daysFromCivil t.year t.month t.day + 3) % 7).toNat

/-- The fixed weekday order the Occupancy page reindexes the heatmap rows to
(app.py line 120). -/
def days_order : List String :=
  ["Monday", "Tuesday", "Wednesday", "Thursday", "Friday", "Saturday", "Sunday"]

/-- pandas `dt.day_name()` (app.py line 15): full English weekday name. -/
def dayName (t : Timestamp) : String := days_order.getD (dayOfWeekIndex t) ""

/-- The decimal digit character for `n % 10`. -/
def digitChar (n : Nat) : Char := Char.ofNat (48 + n % 10)

/-- Two-digit zero-padded decimal rendering (of `n % 100`). -/
def pad2 (n : Nat) : String := String.mk [digitChar (n / 10), digitChar n]

/-- Four-digit zero-padded decimal rendering (of `n % 10000`). -/
def pad4 (n : Nat) : String :=
  String.mk [digitChar (n / 1000), digitChar (n / 100), digitChar (n / 10), digitChar n]

/-- pandas `dt.to_period("M").astype(str)` (app.py line 18): "YYYY-MM". -/
def monthYearStr (t : Timestamp) : String := pad4 t.year ++ "-" ++ pad2 t.month

/-- Numeric value of a decimal digit character. -/
def charDigit (c : Char) : Nat := c.toNat - 48

/-- Reads a "YYYY-MM" label back as the number `year * 100 + month`
(0 on any other shape): the calendar position the label displays. -/
def parseYM (s : String) : Nat :=
  match s.data with
  | [a, b, c, d, _, e, f] =>
      (charDigit a * 1000 + charDigit b * 100 + charDigit c * 10 + charDigit d) * 100 +
        (charDigit e * 10 + charDigit f)
  | _ => 0

/-- The calendar position of a timestamp's month: `year * 100 + month`. -/
def chronoKey (t : Timestamp) : Nat := t.year * 100 + t.month

/-- pandas `dt.floor("H")` (app.py line 158): zero minutes and seconds. -/
def floorHour (t : Timestamp) : Timestamp := { t with minute := 0, second := 0 }

/-- pandas `dt.floor("D")` (app.py line 160): zero hours, minutes, seconds. -/
def floorDay (t : Timestamp) : Timestamp := { t with hour := 0, minute := 0, second := 0 }

/-- pandas `dt.date` (app.py line 323). -/
def dateOf (t : Timestamp) : Date := ⟨t.year, t.month, t.day⟩

/-! ## Sorting

`insertLe`/`sortBy` is a stable insertion sort: an element is inserted before
the first element `y` with `le x y`, so an earlier element precedes equal
later ones.  pandas `groupby(sort=True)` sorts the distinct keys ascending —
any correct sort of a duplicate-free list — and `sort_values(ascending=False)`
is a stable ascending argsort (numpy's small-array path) whose permutation
pandas reverses. -/

/-- Insert `x` before the first element `y` of `l` with `le x y = true`. -/
def insertLe (le : α → α → Bool) (x : α) : List α → List α
  | [] => [x]
  | y :: l => if le x y then x :: y :: l else y :: insertLe le x l

/-- Stable insertion sort by the Boolean comparator `le`. -/
def sortBy (le : α → α → Bool) : List α → List α
  | [] => []
  | x :: l => insertLe le x (sortBy le l)

/-- Boolean ≤ on strings (lexicographic, as pandas compares object keys). -/
def strLe (a b : String) : Bool := decide (a ≤ b)

/-- Boolean ≤ on naturals. -/
def natLe (a b : Nat) : Bool := decide (a ≤ b)

/-- Boolean ≤ on rationals. -/
def ratLe (a b : Rat) : Bool := decide (a ≤ b)

/-- Chronological ≤ on timestamps (pandas datetime64 order). -/
def tsLe (a b : Timestamp) : Bool :=
  if a.year ≠ b.year then decide (a.year < b.year)
  else if a.month ≠ b.month then decide (a.month < b.month)
  else if a.day ≠ b.day then decide (a.day < b.day)
  else if a.hour ≠ b.hour then decide (a.hour < b.hour)
  else if a.minute ≠ b.minute then decide (a.minute < b.minute)
  else decide (a.second ≤ b.second)

/-- The distinct keys of `l`, sorted ascending: the group index a pandas
`groupby(sort=True)` produces. -/
def sortedKeys [DecidableEq α] (le : α → α → Bool) (l : List α) : List α :=
  sortBy le l.dedup

/-! ## The load-time derivation and the page steps (the state each page
writes into the shared frame) -/

/-- app.py lines 14-18: the three calendar columns added right after load. -/
def addBaseTimeFields (rows : List Row) : List Row :=
  rows.map fun r =>
    { r with hour := some r.timestamp.hour,
             day_of_week := some (dayName r.timestamp),
             month_year := some (monthYearStr r.timestamp) }

/-- app.py line 323: the `date` column the Operational Overview page adds. -/
def addDate (rows : List Row) : List Row :=
  rows.map fun r => { r with date := some (dateOf r.timestamp) }

/-- The spec's `deriveTimeFields`: all four derived calendar columns
(app.py lines 14-18 and line 323 combined). -/
def deriveTimeFields (rows : List Row) : List Row := addDate (addBaseTimeFields rows)

/-- app.py lines 157-160: the `time_group` column (timestamp floored to the
hour for "Hourly", to midnight otherwise). -/
def addTimeGroup (interval : String) (rows : List Row) : List Row :=
  rows.map fun r =>
    { r with time_group := some (if interval == "Hourly" then floorHour r.timestamp else floorDay r.timestamp) }

/-- app.py line 249: the `prediction_error` column,
`abs(actual_cooling_load_kWh - predicted_cooling_load_kWh)`. -/
def addPredictionError (rows : List Row) : List Row :=
  rows.map fun r =>
    { r with prediction_error := some (abs (r.actual_cooling_load_kWh - r.predicted_cooling_load_kWh)) }

/-! ## kpiSummary (Executive Summary page, app.py lines 25-28) -/

/-- The comfort-band test of app.py line 28:
`(adjusted_setpoint >= 22) & (adjusted_setpoint <= 25)`.  A NaN entry
compares False on both sides, so a missing setpoint is non-compliant. -/
def compliant (r : Row) : Bool :=
  match r.adjusted_setpoint with
  | some v => decide (22 ≤ v) && decide (v ≤ 25)
  | none => false

/-- Mean of a list of rationals (pandas `.mean()` on a NaN-free column). -/
def meanRat (xs : List Rat) : Rat := xs.sum / (xs.length : Rat)

/-- Mean of an optional column (pandas `.mean()` skips NaN; all-NaN means NaN). -/
def meanOpt (xs : List (Option Rat)) : Option Rat :=
  let ys := xs.filterMap id
  if ys.length = 0 then none else some (ys.sum / (ys.length : Rat))

/-- The KPI tiles of the Executive Summary page. -/
structure KPI where
  total_actual_energy : Rat
  total_energy_saved : Rat
  average_occupancy_pct : Rat
  comfort_compliance_pct : Rat
  deriving DecidableEq, Repr

/-- app.py lines 25-28.  The compliance tile is a boolean-series `.mean()`
times 100: (rows passing the band test) / (all rows) * 100. -/
def kpiSummary (rows : List Row) : KPI :=
  { total_actual_energy := (rows.map fun r => r.actual_cooling_load_kWh).sum,
    total_energy_saved :=
      (rows.map fun r => r.baseline_cooling_load).sum -
        (rows.map fun r => r.optimized_cooling_load_kWh).sum,
    average_occupancy_pct := meanRat (rows.map fun r => r.occupancy_pct),
    comfort_compliance_pct := ((rows.countP compliant : Rat) / (rows.length : Rat)) * 100 }

/-! ## zoneEnergyTotals (app.py lines 48-49) -/

/-- Total `actual_cooling_load_kWh` of the rows of one zone. -/
def zoneSum (rows : List Row) (z : String) : Rat :=
  ((rows.filter fun r => r.zone_id == z).map fun r => r.actual_cooling_load_kWh).sum

/-- app.py line 48: `groupby("zone_id")["actual_cooling_load_kWh"].sum()`,
one row per zone, keys ascending. -/
def zoneGroups (rows : List Row) : List (String × Rat) :=
  (sortedKeys strLe (rows.map fun r => r.zone_id)).map fun z => (z, zoneSum rows z)

/-- app.py line 49: `sort_values(by="actual_cooling_load_kWh",
ascending=False)` — stable ascending argsort, then the reversal pandas'
`nargsort` applies for descending order. -/
def zoneEnergyTotals (rows : List Row) : List (String × Rat) :=
  (sortBy (fun p q => ratLe p.2 q.2) (zoneGroups rows)).reverse

/-! ## monthlyTrend (app.py line 91) -/

/-- Total `actual_cooling_load_kWh` of the rows in one month bucket. -/
def monthSum (rows : List Row) (k : String) : Rat :=
  ((rows.filter fun r => monthYearStr r.timestamp == k).map
      fun r => r.actual_cooling_load_kWh).sum

/-- app.py line 91: `groupby("month_year")["actual_cooling_load_kWh"].sum()`
over the "YYYY-MM" labels of line 18, keys ascending (string order). -/
def monthlyTrend (rows : List Row) : List (String × Rat) :=
  (sortedKeys strLe (rows.map fun r => monthYearStr r.timestamp)).map
    fun k => (k, monthSum rows k)

/-! ## occupancyHeatmapMatrix (app.py lines 119-121) -/

/-- The heatmap's column keys: the distinct observed `hour` values, sorted
ascending (pandas `pivot_table` keeps only observed column keys). -/
def heatCols (rows : List Row) : List Nat :=
  sortedKeys natLe (rows.map fun r => r.timestamp.hour)

/-- Rows falling in one (weekday, hour) cell. -/
def cellRows (rows : List Row) (d : String) (h : Nat) : List Row :=
  rows.filter fun r => dayName r.timestamp == d && r.timestamp.hour == h

/-- One heatmap cell: mean `occupancy_pct`, NaN (`none`) when no row falls in
the cell. -/
def heatCell (rows : List Row) (d : String) (h : Nat) : Option Rat :=
  let xs := (cellRows rows d h).map fun r => r.occupancy_pct
  if xs.length = 0 then none else some (xs.sum / (xs.length : Rat))

/-- app.py lines 119-121: `pivot_table(index='day_of_week', columns='hour',
values='occupancy_pct', aggfunc='mean')` reindexed to `days_order`: one row
per fixed weekday name, the observed hours as columns. -/
def occupancyHeatmapMatrix (rows : List Row) : List (String × List (Nat × Option Rat)) :=
  days_order.map fun d => (d, (heatCols rows).map fun h => (h, heatCell rows d h))

/-! ## setpointTimeSeries (app.py lines 157-172) -/

/-- The `time_group` cell of a row (its timestamp while the column is unset). -/
def tgOf (r : Row) : Timestamp := r.time_group.getD r.timestamp

/-- app.py lines 157-172: add `time_group`, filter to the selected zone, group
by `time_group` (keys ascending) with mean standard and adjusted setpoints. -/
def setpointTimeSeries (interval : String) (zone : String) (rows : List Row) :
    List (Timestamp × Rat × Option Rat) :=
  let dfz := (addTimeGroup interval rows).filter fun r => r.zone_id == zone
  (sortedKeys tsLe (dfz.map tgOf)).map fun g =>
    let grp := dfz.filter fun r => tgOf r == g
    (g, meanRat (grp.map fun r => r.standard_setpoint),
      meanOpt (grp.map fun r => r.adjusted_setpoint))

/-! ## forecastErrorTable (app.py lines 246-310) -/

/-- The failure the Forecasting page surfaces when a required column is
absent (the `st.warning` of app.py line 310, which names the operation's
required columns). -/
structure MissingColumnError where
  operation : String
  columns : List String
  deriving DecidableEq, Repr

/-- A loaded table: its rows plus whether the optional
`predicted_cooling_load_kWh` column is present (the membership the
Forecasting page tests with `in df.columns`, app.py line 246). -/
structure Dataset where
  rows : List Row
  hasPredictedCol : Bool
  deriving DecidableEq

/-- The two columns app.py line 246 requires (and line 310 names). -/
def forecastRequiredColumns : List String :=
  ["actual_cooling_load_kWh", "predicted_cooling_load_kWh"]

/-- app.py lines 246-310: with both load columns present, append the
`prediction_error` column; otherwise fail with the column-naming warning. -/
def forecastErrorTable (ds : Dataset) : Except MissingColumnError (List Row) :=
  if ds.hasPredictedCol then Except.ok (addPredictionError ds.rows)
  else Except.error { operation := "forecastErrorTable", columns := forecastRequiredColumns }

/-- The Executive Summary KPIs as an operation on a loaded table: the page
performs no column check (app.py lines 25-28 read always-present columns),
so it always succeeds. -/
def kpiSummaryOp (ds : Dataset) : Except MissingColumnError KPI :=
  Except.ok (kpiSummary ds.rows)

/-! ## Concrete records for the spec's worked examples -/

/-- A record with the given timestamp, zone, setpoints, load and occupancy;
the remaining source columns take fixed harmless values. -/
def mkRow (t : Timestamp) (z : String) (std : Rat) (adj : Option Rat)
    (load occ : Rat) : Row :=
  { timestamp := t, zone_id := z, zone_type := "office", zone_function := "work",
    zoning_mode := "static", occupancy_pct := occ, occupancy_count := 0,
    standard_setpoint := std, adjusted_setpoint := adj,
    actual_cooling_load_kWh := load, baseline_cooling_load := 0,
    optimized_cooling_load_kWh := 0, predicted_cooling_load_kWh := 0,
    rolling_avg_occupancy_3h := 0, rolling_max_occupancy_6h := 0 }

/-- The spec's 4-row compliance dataset: adjusted setpoints
21.9, 22.0, 25.0, 25.1. -/
def c1rows : List Row :=
  [mkRow ⟨2024, 1, 1, 0, 0, 0⟩ "Z1" 22 (some (Rat.divInt 219 10)) 0 0,
   mkRow ⟨2024, 1, 1, 1, 0, 0⟩ "Z1" 22 (some 22) 0 0,
   mkRow ⟨2024, 1, 1, 2, 0, 0⟩ "Z1" 22 (some 25) 0 0,
   mkRow ⟨2024, 1, 1, 3, 0, 0⟩ "Z1" 22 (some (Rat.divInt 251 10)) 0 0]

/-- Rows spanning Mar-2024, Jan-2024, Feb-2024 in that input order. -/
def c2rows : List Row :=
  [mkRow ⟨2024, 3, 10, 0, 0, 0⟩ "Z1" 22 (some 22) 7 0,
   mkRow ⟨2024, 1, 5, 0, 0, 0⟩ "Z1" 22 (some 22) 3 0,
   mkRow ⟨2024, 2, 20, 0, 0, 0⟩ "Z1" 22 (some 22) 5 0]

/-- A permutation of `c2rows` (last row rotated to the front). -/
def c2rowsPerm : List Row :=
  [mkRow ⟨2024, 2, 20, 0, 0, 0⟩ "Z1" 22 (some 22) 5 0,
   mkRow ⟨2024, 3, 10, 0, 0, 0⟩ "Z1" 22 (some 22) 7 0,
   mkRow ⟨2024, 1, 5, 0, 0, 0⟩ "Z1" 22 (some 22) 3 0]

/-- Two zones "A" (first in input order) and "B", with equal energy totals. -/
def c5rows : List Row :=
  [mkRow ⟨2024, 1, 1, 0, 0, 0⟩ "A" 22 (some 22) 10 0,
   mkRow ⟨2024, 1, 1, 1, 0, 0⟩ "B" 22 (some 22) 10 0]

/-- A single record observed at hour 3. -/
def c6row : Row := mkRow ⟨2024, 1, 1, 3, 0, 0⟩ "Z1" 22 (some 22) 1 50

/-- A row of the C7 scenario: 2024-01-01 at 10 hours and the given minutes,
with the given standard/adjusted setpoints. -/
def c7row (z : String) (mi : Nat) (std adj : Rat) : Row :=
  mkRow ⟨2024, 1, 1, 10, mi, 0⟩ z std (some adj) 0 0

/-- One compliant row, for the compliance-lowering witness. -/
def c10rows : List Row := [mkRow ⟨2024, 1, 1, 0, 0, 0⟩ "Z1" 22 (some 23) 0 0]

/-- A row whose `adjusted_setpoint` is missing (NaN). -/
def c10missing : Row := mkRow ⟨2024, 1, 1, 1, 0, 0⟩ "Z1" 22 none 0 0

/-! ## Sanity of the embedding on concrete calendar values -/

example : daysFromCivil 1970 1 1 = 0 := by decide
example : daysFromCivil 2024 1 1 = 19723 := by decide
example : dayName ⟨2024, 1, 1, 0, 0, 0⟩ = "Monday" := by decide
example : dayName ⟨2024, 3, 10, 15, 0, 0⟩ = "Sunday" := by decide
example : monthYearStr ⟨2024, 3, 5, 0, 0, 0⟩ = "2024-03" := by decide
example : floorHour ⟨2024, 1, 1, 10, 15, 0⟩ = ⟨2024, 1, 1, 10, 0, 0⟩ := by decide

/-! ## Sorting lemmas -/

theorem insertLe_perm (le : α → α → Bool) (x : α) (l : List α) :
    (insertLe le x l).Perm (x :: l) := by
  induction l with
  | nil => exact List.Perm.refl _
  | cons y t ih =>
    by_cases h : le x y
    · simp [insertLe, h]
    · simp only [insertLe, h, Bool.false_eq_true, if_false]
      exact (ih.cons y).trans (List.Perm.swap x y t)

theorem sortBy_perm (le : α → α → Bool) (l : List α) : (sortBy le l).Perm l := by
  induction l with
  | nil => exact List.Perm.refl _
  | cons x t ih => exact (insertLe_perm le x (sortBy le t)).trans (ih.cons x)

theorem pairwise_true (l : List α) : l.Pairwise fun _ _ => True := by
  induction l with
  | nil => exact List.Pairwise.nil
  | cons x t ih => exact List.pairwise_cons.mpr ⟨fun _ _ => trivial, ih⟩

/-- Inserting `x` into a list sorted by `le` keeps it sorted and, by
stability, keeps `x` related by `S` to every element it precedes, provided
`x` is `S`-related to everything in the list. -/
theorem insertLe_pairwise_stable (le : α → α → Bool) (S : α → α → Prop)
    (htot : ∀ a b, le a b = true ∨ le b a = true)
    (htrans : ∀ a b c, le a b = true → le b c = true → le a c = true)
    (x : α) (l : List α)
    (hl : l.Pairwise fun a b => le a b = true ∧ (le b a = true → S a b))
    (hx : ∀ y ∈ l, S x y) :
    (insertLe le x l).Pairwise fun a b => le a b = true ∧ (le b a = true → S a b) := by
  induction l with
  | nil =>
    simp only [insertLe]
    exact List.pairwise_cons.mpr ⟨fun b hb => absurd hb (List.not_mem_nil b), List.Pairwise.nil⟩
  | cons y t ih =>
    rcases List.pairwise_cons.mp hl with ⟨hy, ht⟩
    by_cases h : le x y
    · simp only [insertLe, h, if_true]
      refine List.pairwise_cons.mpr ⟨?_, hl⟩
      intro b hb
      rcases List.mem_cons.mp hb with rfl | hbt
      · exact ⟨h, fun _ => hx b (List.mem_cons_self b t)⟩
      · exact ⟨htrans x y b h (hy b hbt).1, fun _ => hx b (List.mem_cons_of_mem y hbt)⟩
    · simp only [insertLe, h, Bool.false_eq_true, if_false]
      refine List.pairwise_cons.mpr
        ⟨?_, ih ht (fun b hb => hx b (List.mem_cons_of_mem y hb))⟩
      intro b hb
      have hb' : b = x ∨ b ∈ t := List.mem_cons.mp ((insertLe_perm le x t).mem_iff.mp hb)
      rcases hb' with rfl | hbt
      · refine ⟨(htot b y).resolve_left ?_, fun hxb => absurd hxb ?_⟩ <;>
          simpa using h
      · exact hy b hbt

/-- A stable sort of a list that is `S`-pairwise (in input order) is sorted
by `le` and stays `S`-pairwise wherever the comparator ties. -/
theorem sortBy_pairwise_stable (le : α → α → Bool) (S : α → α → Prop)
    (htot : ∀ a b, le a b = true ∨ le b a = true)
    (htrans : ∀ a b c, le a b = true → le b c = true → le a c = true)
    (l : List α) (hl : l.Pairwise S) :
    (sortBy le l).Pairwise fun a b => le a b = true ∧ (le b a = true → S a b) := by
  induction l with
  | nil => exact List.Pairwise.nil
  | cons x t ih =>
    rcases List.pairwise_cons.mp hl with ⟨hx, ht⟩
    exact insertLe_pairwise_stable le S htot htrans x _ (ih ht)
      (fun y hy => hx y ((sortBy_perm le t).mem_iff.mp hy))

theorem sortBy_pairwise_le (le : α → α → Bool)
    (htot : ∀ a b, le a b = true ∨ le b a = true)
    (htrans : ∀ a b c, le a b = true → le b c = true → le a c = true)
    (l : List α) : (sortBy le l).Pairwise fun a b => le a b = true :=
  (sortBy_pairwise_stable le (fun _ _ => True) htot htrans l (pairwise_true l)).imp
    fun h => h.1

theorem strLe_total (a b : String) : strLe a b = true ∨ strLe b a = true := by
  simpa [strLe] using le_total a b

theorem strLe_trans (a b c : String) :
    strLe a b = true → strLe b c = true → strLe a c = true := by
  simp only [strLe, decide_eq_true_eq]
  exact le_trans

theorem natLe_total (a b : Nat) : natLe a b = true ∨ natLe b a = true := by
  simpa [natLe] using le_total a b

theorem natLe_trans (a b c : Nat) :
    natLe a b = true → natLe b c = true → natLe a c = true := by
  simp only [natLe, decide_eq_true_eq]
  exact le_trans

theorem ratLe_total (a b : Rat) : ratLe a b = true ∨ ratLe b a = true := by
  simpa [ratLe] using le_total a b

theorem ratLe_trans (a b c : Rat) :
    ratLe a b = true → ratLe b c = true → ratLe a c = true := by
  simp only [ratLe, decide_eq_true_eq]
  exact le_trans

theorem sortedKeys_nodup [DecidableEq α] (le : α → α → Bool) (l : List α) :
    (sortedKeys le l).Nodup :=
  ((sortBy_perm le l.dedup).nodup_iff).mpr l.nodup_dedup

theorem mem_sortedKeys [DecidableEq α] (le : α → α → Bool) (l : List α) (a : α) :
    a ∈ sortedKeys le l ↔ a ∈ l := by
  rw [sortedKeys, (sortBy_perm le l.dedup).mem_iff, List.mem_dedup]

/-! ## Summing a grouped table recovers the ungrouped sum -/

theorem map_sum_update {κ : Type} [BEq κ] [LawfulBEq κ] (ks : List κ) (hnd : ks.Nodup)
    (k0 : κ) (hk : k0 ∈ ks) (x : Rat) (S : κ → Rat) :
    (ks.map fun k => if k0 == k then x + S k else S k).sum = x + (ks.map S).sum := by
  induction ks with
  | nil => exact absurd hk (List.not_mem_nil k0)
  | cons c cs ih =>
    rcases List.nodup_cons.mp hnd with ⟨hc, hcs⟩
    rcases List.mem_cons.mp hk with rfl | hk0
    · have htail : (cs.map fun k => if k0 == k then x + S k else S k) = cs.map S := by
        apply List.map_congr_left
        intro k hkc
        have : k0 ≠ k := fun h => hc (h ▸ hkc)
        simp [this]
      simp only [List.map_cons, List.sum_cons, beq_self_eq_true, if_true, htail]
      ring
    · have hne : (k0 == c) = false := by
        have : k0 ≠ c := fun h => hc (h ▸ hk0)
        simp [this]
      simp only [List.map_cons, List.sum_cons, hne, Bool.false_eq_true, if_false,
        ih hcs hk0]
      ring

/-- Partitioning a list by a key over a duplicate-free covering key list and
summing the per-key sums gives the total sum: a grouped-sum table neither
loses nor double-counts. -/
theorem sum_filter_key {α κ : Type} [BEq κ] [LawfulBEq κ]
    (key : α → κ) (val : α → Rat) (l : List α) (ks : List κ)
    (hnd : ks.Nodup) (hmem : ∀ a ∈ l, key a ∈ ks) :
    (ks.map fun k => ((l.filter fun a => key a == k).map val).sum).sum
      = (l.map val).sum := by
  induction l with
  | nil => simp
  | cons a t ih =>
    have hrec := ih fun b hb => hmem b (List.mem_cons_of_mem a hb)
    have hstep : (ks.map fun k => (((a :: t).filter fun b => key b == k).map val).sum)
        = ks.map fun k => if key a == k
            then val a + ((t.filter fun b => key b == k).map val).sum
            else ((t.filter fun b => key b == k).map val).sum := by
      apply List.map_congr_left
      intro k _
      rw [List.filter_cons]
      by_cases h : (key a == k) = true
      · simp [h]
      · simp [h]
    rw [hstep, map_sum_update ks hnd (key a) (hmem a (List.mem_cons_self a t)) (val a) _,
      hrec, List.map_cons, List.sum_cons]

/-! ## C1: inclusive comfort-compliance bounds -/

/-- C1.  The comfort-compliance KPI counts exactly the rows whose
`adjusted_setpoint` lies in the inclusive band [22, 25]; the percentage is
that count over all rows times 100, and on the spec's 4-row dataset with
setpoints 21.9, 22.0, 25.0, 25.1 it is 50%. -/
theorem kpiSummary_comfort_compliance (rows : List Row) :
    (∀ r : Row, compliant r = true ↔ ∃ v, r.adjusted_setpoint = some v ∧ 22 ≤ v ∧ v ≤ 25) ∧
    (kpiSummary rows).comfort_compliance_pct
        = ((rows.countP compliant : Rat) / (rows.length : Rat)) * 100 ∧
    (kpiSummary c1rows).comfort_compliance_pct = 50 := by
  refine ⟨?_, rfl, ?_⟩
  · intro r
    cases h : r.adjusted_setpoint with
    | none => simp [compliant, h]
    | some v => simp [compliant, h]
  · show ((c1rows.countP compliant : Rat) / (c1rows.length : Rat)) * 100 = 50
    have h2 : c1rows.countP compliant = 2 := by decide
    have h4 : c1rows.length = 4 := rfl
    rw [h2, h4]
    norm_num

/-! ## C10: a missing adjusted setpoint counts in the denominator -/

/-- C10.  The compliance denominator is the full row count: a row whose
`adjusted_setpoint` is missing is kept in the denominator and never in the
numerator (the NaN comparisons are False), so appending such a row strictly
lowers a positive compliance percentage. -/
theorem comfort_compliance_missing_counts (rows : List Row) (r0 : Row)
    (h0 : r0.adjusted_setpoint = none)
    (hc : 0 < rows.countP compliant) :
    (kpiSummary (rows ++ [r0])).comfort_compliance_pct
        = ((rows.countP compliant : Rat) / ((rows.length : Rat) + 1)) * 100 ∧
    (kpiSummary (rows ++ [r0])).comfort_compliance_pct
        < (kpiSummary rows).comfort_compliance_pct := by
  have hr0 : compliant r0 = false := by simp [compliant, h0]
  have hcount : (rows ++ [r0]).countP compliant = rows.countP compliant := by
    simp [List.countP_append, List.countP_cons, hr0]
  have hlen : ((rows ++ [r0]).length : Rat) = (rows.length : Rat) + 1 := by
    simp
  constructor
  · simp only [kpiSummary, hcount, List.length_append, List.length_cons,
      List.length_nil, Nat.zero_add]
    push_cast
    ring
  · simp only [kpiSummary, hcount, List.length_append, List.length_cons,
      List.length_nil, Nat.zero_add]
    have hn : 0 < (rows.length : Rat) := by
      have : 0 < rows.length := lt_of_lt_of_le hc (List.countP_le_length compliant)
      exact_mod_cast this
    have hcQ : 0 < (rows.countP compliant : Rat) := by exact_mod_cast hc
    have hdiv : (rows.countP compliant : Rat) / ((rows.length : Rat) + 1)
        < (rows.countP compliant : Rat) / (rows.length : Rat) := by
      apply div_lt_div_of_pos_left hcQ hn
      linarith
    have h100 : (0 : Rat) < 100 := by norm_num
    calc ((rows.countP compliant : Rat) / ((rows.length : Nat) + 1 : Nat)) * 100
        = ((rows.countP compliant : Rat) / ((rows.length : Rat) + 1)) * 100 := by
          push_cast; ring
      _ < ((rows.countP compliant : Rat) / (rows.length : Rat)) * 100 :=
          (mul_lt_mul_of_pos_right hdiv h100)

/-- Witness for C10 at a concrete input: one compliant row plus one row with
a missing setpoint takes the percentage from 100% to 50%. -/
theorem comfort_compliance_missing_counts_witness :
    (kpiSummary (c10rows ++ [c10missing])).comfort_compliance_pct
        = ((c10rows.countP compliant : Rat) / ((c10rows.length : Rat) + 1)) * 100 ∧
    (kpiSummary (c10rows ++ [c10missing])).comfort_compliance_pct
        < (kpiSummary c10rows).comfort_compliance_pct :=
  comfort_compliance_missing_counts c10rows c10missing (by decide) (by decide)

/-! ## C3: a missing forecast column fails locally -/

/-- C3.  On a table without `predicted_cooling_load_kWh`, `forecastErrorTable`
fails with a `MissingColumnError` naming that column; the failure is local:
`kpiSummary` over the same table still succeeds, and with the column present
the operation computes the absolute error per row. -/
theorem forecastErrorTable_missing_column_local (rows : List Row) :
    (forecastErrorTable ⟨rows, false⟩
        = Except.error ⟨"forecastErrorTable", forecastRequiredColumns⟩) ∧
    (∀ e, forecastErrorTable ⟨rows, false⟩ = Except.error e →
        "predicted_cooling_load_kWh" ∈ e.columns) ∧
    kpiSummaryOp ⟨rows, false⟩ = Except.ok (kpiSummary rows) ∧
    forecastErrorTable ⟨rows, true⟩ = Except.ok (addPredictionError rows) ∧
    (∀ r ∈ addPredictionError rows,
      r.prediction_error
        = some (abs (r.actual_cooling_load_kWh - r.predicted_cooling_load_kWh))) := by
  refine ⟨rfl, ?_, rfl, rfl, ?_⟩
  · intro e he
    have : e = ⟨"forecastErrorTable", forecastRequiredColumns⟩ := by
      simpa [forecastErrorTable] using he.symm
    subst this
    simp [forecastRequiredColumns]
  · intro r hr
    rcases List.mem_map.mp hr with ⟨s, _, rfl⟩
    rfl

/-! ## C4: the page steps append derived columns without touching source
fields, are idempotent, and leave every aggregate unchanged -/

/-- C4.  Each derived-column step preserves every source field of every row
(derived columns are appended, never written destructively over source
data), each step is idempotent, and recomputing any aggregate after another
page's step has written its column gives the same table as on the fresh
dataset — so calling an aggregate twice yields identical results. -/
theorem aggregates_pure_nonmutating (rows : List Row) (interval zone : String) :
    ((addBaseTimeFields rows).map sourceOf = rows.map sourceOf) ∧
    ((addDate rows).map sourceOf = rows.map sourceOf) ∧
    ((addTimeGroup interval rows).map sourceOf = rows.map sourceOf) ∧
    ((addPredictionError rows).map sourceOf = rows.map sourceOf) ∧
    (addBaseTimeFields (addBaseTimeFields rows) = addBaseTimeFields rows) ∧
    (addDate (addDate rows) = addDate rows) ∧
    (addTimeGroup interval (addTimeGroup interval rows) = addTimeGroup interval rows) ∧
    (addPredictionError (addPredictionError rows) = addPredictionError rows) ∧
    (kpiSummary (addPredictionError rows) = kpiSummary rows) ∧
    (kpiSummary (addBaseTimeFields rows) = kpiSummary rows) ∧
    (kpiSummary (addTimeGroup interval rows) = kpiSummary rows) ∧
    (zoneEnergyTotals (addTimeGroup interval rows) = zoneEnergyTotals rows) ∧
    (zoneEnergyTotals (addPredictionError rows) = zoneEnergyTotals rows) ∧
    (monthlyTrend (addBaseTimeFields rows) = monthlyTrend rows) ∧
    (monthlyTrend (addPredictionError rows) = monthlyTrend rows) ∧
    (occupancyHeatmapMatrix (addTimeGroup interval rows) = occupancyHeatmapMatrix rows) ∧
    (setpointTimeSeries interval zone (addPredictionError rows)
        = setpointTimeSeries interval zone rows) := by
  repeat' constructor
  all_goals
    simp only [addBaseTimeFields, addDate, addTimeGroup, addPredictionError,
      kpiSummary, zoneEnergyTotals, zoneGroups, zoneSum, monthlyTrend, monthSum,
      occupancyHeatmapMatrix, heatCols, cellRows, heatCell, setpointTimeSeries,
      sortedKeys, List.map_map, List.countP_map, List.filter_map, List.length_map]
  all_goals rfl

/-! ## C8: grouping by zone conserves total energy -/

/-- C8.  The values of the `zoneEnergyTotals` table sum to the ungrouped
total of `actual_cooling_load_kWh` over the whole dataset: grouping by
`zone_id` neither loses nor double-counts energy. -/
theorem zoneEnergyTotals_conservation (rows : List Row) :
    ((zoneEnergyTotals rows).map fun p => p.2).sum
      = (rows.map fun r => r.actual_cooling_load_kWh).sum := by
  have hperm : ((zoneEnergyTotals rows).map fun p => p.2).Perm
      ((zoneGroups rows).map fun p => p.2) :=
    ((List.reverse_perm _).map _).trans ((sortBy_perm _ _).map _)
  rw [hperm.sum_eq, zoneGroups, List.map_map]
  exact sum_filter_key (fun r : Row => r.zone_id) (fun r => r.actual_cooling_load_kWh)
    rows (sortedKeys strLe (rows.map fun r => r.zone_id)) (sortedKeys_nodup _ _)
    (fun a ha => (mem_sortedKeys _ _ _).mpr (List.mem_map_of_mem _ ha))

/-! ## C5: zone totals are sorted descending, but ties come out reversed -/

/-- C5 (amended).  `zoneEnergyTotals` has exactly one row per `zone_id`
carrying that zone's sum and is ordered by the sum descending; ties between
equal sums appear in the REVERSE of the grouped (zone_id-ascending) order —
pandas' descending `sort_values` reverses a stable ascending argsort — so
equal sums come out in descending `zone_id` order, not in input order. -/
theorem zoneEnergyTotals_rows (rows : List Row) :
    ((zoneEnergyTotals rows).map Prod.fst).Perm (rows.map fun r => r.zone_id).dedup ∧
    (∀ p ∈ zoneEnergyTotals rows, p.2 = zoneSum rows p.1) ∧
    (zoneEnergyTotals rows).Pairwise
      (fun p q => q.2 ≤ p.2 ∧ (p.2 = q.2 → q.1 ≤ p.1)) := by
  refine ⟨?_, ?_, ?_⟩
  · have h1 : ((zoneEnergyTotals rows).map Prod.fst).Perm
        ((zoneGroups rows).map Prod.fst) :=
      ((List.reverse_perm _).map _).trans ((sortBy_perm _ _).map _)
    refine h1.trans ?_
    rw [zoneGroups, List.map_map]
    have h2 : ((sortedKeys strLe (rows.map fun r => r.zone_id)).map
        (Prod.fst ∘ fun z => (z, zoneSum rows z)))
        = sortedKeys strLe (rows.map fun r => r.zone_id) := by
      generalize sortedKeys strLe (rows.map fun r => r.zone_id) = l
      induction l with
      | nil => rfl
      | cons a t ih => simp only [List.map_cons, ih, Function.comp_apply]
    rw [h2]
    exact sortBy_perm _ _
  · intro p hp
    have hp1 : p ∈ sortBy (fun p q => ratLe p.2 q.2) (zoneGroups rows) :=
      List.mem_reverse.mp hp
    have hp2 : p ∈ zoneGroups rows := (sortBy_perm _ _).mem_iff.mp hp1
    rcases List.mem_map.mp hp2 with ⟨z, _, rfl⟩
    rfl
  · have hkeys : (sortedKeys strLe (rows.map fun r => r.zone_id)).Pairwise
        (fun a b => strLe a b = true) :=
      sortBy_pairwise_le strLe strLe_total strLe_trans _
    have hgroups : (zoneGroups rows).Pairwise
        (fun p q : String × Rat => strLe p.1 q.1 = true) := by
      rw [zoneGroups]
      exact List.pairwise_map.mpr hkeys
    have hsorted := sortBy_pairwise_stable (fun p q : String × Rat => ratLe p.2 q.2)
      (fun p q : String × Rat => strLe p.1 q.1 = true)
      (fun a b => ratLe_total a.2 b.2) (fun a b c => ratLe_trans a.2 b.2 c.2)
      (zoneGroups rows) hgroups
    rw [zoneEnergyTotals, List.pairwise_reverse]
    refine hsorted.imp ?_
    rintro a b ⟨h1, h2⟩
    refine ⟨by simpa [ratLe] using h1, fun hba => ?_⟩
    have : ratLe b.2 a.2 = true := by simp [ratLe, hba]
    simpa [strLe] using h2 this

/-- C5 counterexample.  With zone "A" first in input order and both zones
summing to 10, the output lists "B" before "A": ties are NOT broken by input
order (the claimed stable behaviour would give "A" first). -/
theorem zoneEnergyTotals_ties_reversed :
    zoneEnergyTotals c5rows = [("B", 10), ("A", 10)] ∧
    (zoneEnergyTotals c5rows).map Prod.fst ≠ ["A", "B"] := by
  have hAB : strLe "A" "B" = true :=
    decide_eq_true (String.le_iff_toList_le.mpr (by decide))
  have hrat : ratLe (10 : Rat) 10 = true := decide_eq_true (le_refl _)
  have h : zoneEnergyTotals c5rows = [("B", 10), ("A", 10)] := by
    simp [zoneEnergyTotals, zoneGroups, zoneSum, sortedKeys, sortBy, insertLe,
      c5rows, mkRow, hAB, hrat]
  refine ⟨h, ?_⟩
  rw [h]
  simp

/-! ## C2: the "YYYY-MM" labels sort chronologically -/

theorem lex_nil_nil {r : Char → Char → Prop} : ¬ List.Lex r [] [] := fun h => by cases h

theorem lex_nil_nil_iff {r : Char → Char → Prop} : List.Lex r [] [] ↔ False :=
  ⟨fun h => lex_nil_nil h, False.elim⟩

theorem lex_cons_iff_lt {a b : Char} {l m : List Char} :
    List.Lex (· < ·) (a :: l) (b :: m) ↔ a < b ∨ (a = b ∧ List.Lex (· < ·) l m) := by
  constructor
  · intro h
    cases h with
    | rel h => exact Or.inl h
    | cons h => exact Or.inr ⟨rfl, h⟩
  · rintro (h | ⟨rfl, h⟩)
    · exact List.Lex.rel h
    · exact List.Lex.cons h

theorem digitChar_lt_digitChar : ∀ x, x < 10 → ∀ y, y < 10 →
    ((digitChar x < digitChar y) ↔ x < y) := by decide

theorem digitChar_eq_digitChar : ∀ x, x < 10 → ∀ y, y < 10 →
    ((digitChar x = digitChar y) ↔ x = y) := by decide

theorem charDigit_digitChar_lt : ∀ x, x < 10 → charDigit (digitChar x) = x := by decide

theorem digitChar_mod (n : Nat) : digitChar (n % 10) = digitChar n := by
  unfold digitChar
  rw [Nat.mod_mod_of_dvd n (dvd_refl 10)]

theorem digitChar_lt_iff (x y : Nat) : (digitChar x < digitChar y) ↔ x % 10 < y % 10 := by
  rw [← digitChar_mod x, ← digitChar_mod y]
  exact digitChar_lt_digitChar _ (Nat.mod_lt x (by norm_num)) _ (Nat.mod_lt y (by norm_num))

theorem digitChar_eq_iff (x y : Nat) : (digitChar x = digitChar y) ↔ x % 10 = y % 10 := by
  rw [← digitChar_mod x, ← digitChar_mod y]
  exact digitChar_eq_digitChar _ (Nat.mod_lt x (by norm_num)) _ (Nat.mod_lt y (by norm_num))

theorem charDigit_digitChar (n : Nat) : charDigit (digitChar n) = n % 10 := by
  rw [← digitChar_mod n]
  exact charDigit_digitChar_lt _ (Nat.mod_lt n (by norm_num))

theorem monthYearStr_toList (t : Timestamp) :
    (monthYearStr t).toList
      = [digitChar (t.year / 1000), digitChar (t.year / 100), digitChar (t.year / 10),
         digitChar t.year, '-', digitChar (t.month / 10), digitChar t.month] := rfl

/-- Lexicographic order on the "YYYY-MM" labels of 4-digit years agrees with
calendar order of (year, month). -/
theorem monthYearStr_lt_iff (t1 t2 : Timestamp)
    (hy1 : t1.year < 10000) (hy2 : t2.year < 10000)
    (hm1 : t1.month < 100) (hm2 : t2.month < 100) :
    monthYearStr t1 < monthYearStr t2 ↔ chronoKey t1 < chronoKey t2 := by
  rw [String.lt_iff_toList_lt, monthYearStr_toList, monthYearStr_toList]
  show List.Lex (· < ·) _ _ ↔ _
  rw [lex_cons_iff_lt, lex_cons_iff_lt, lex_cons_iff_lt, lex_cons_iff_lt,
    lex_cons_iff_lt, lex_cons_iff_lt, lex_cons_iff_lt]
  simp only [digitChar_lt_iff, digitChar_eq_iff, lex_nil_nil_iff, lt_self_iff_false,
    false_or, and_false, or_false, true_and, and_true, eq_self_iff_true]
  unfold chronoKey
  have hd1 : t1.year = 1000 * (t1.year / 1000 % 10) + 100 * (t1.year / 100 % 10)
      + 10 * (t1.year / 10 % 10) + t1.year % 10 := by omega
  have hd2 : t2.year = 1000 * (t2.year / 1000 % 10) + 100 * (t2.year / 100 % 10)
      + 10 * (t2.year / 10 % 10) + t2.year % 10 := by omega
  have hd3 : t1.month = 10 * (t1.month / 10 % 10) + t1.month % 10 := by omega
  have hd4 : t2.month = 10 * (t2.month / 10 % 10) + t2.month % 10 := by omega
  omega

theorem parseYM_monthYearStr (t : Timestamp) (hy : t.year < 10000) (hm : t.month < 100) :
    parseYM (monthYearStr t) = chronoKey t := by
  have hdata : (monthYearStr t).data
      = [digitChar (t.year / 1000), digitChar (t.year / 100), digitChar (t.year / 10),
         digitChar t.year, '-', digitChar (t.month / 10), digitChar t.month] :=
    monthYearStr_toList t
  simp only [parseYM, hdata, charDigit_digitChar]
  unfold chronoKey
  omega

theorem sortedKeys_eq_of_perm (l1 l2 : List String) (h : l1.Perm l2) :
    sortedKeys strLe l1 = sortedKeys strLe l2 := by
  haveI : IsAntisymm String (fun a b => strLe a b = true) :=
    ⟨fun a b ha hb => le_antisymm (by simpa [strLe] using ha) (by simpa [strLe] using hb)⟩
  have hp : (sortedKeys strLe l1).Perm (sortedKeys strLe l2) :=
    (sortBy_perm _ _).trans ((h.dedup).trans (sortBy_perm _ _).symm)
  exact List.eq_of_perm_of_sorted hp
    (sortBy_pairwise_le strLe strLe_total strLe_trans _)
    (sortBy_pairwise_le strLe strLe_total strLe_trans _)

theorem map_fst_keyed {α β : Type} (g : α → β) (l : List α) :
    (l.map fun z => (z, g z)).map Prod.fst = l := by
  induction l with
  | nil => rfl
  | cons a t ih => simp only [List.map_cons, ih]

/-- C2.  `monthlyTrend` is independent of the order of the input rows, and
its output rows are in strictly increasing calendar order of the month (the
"YYYY-MM" label parsed back to year*100+month), not merely in label order:
for 4-digit years the lexical label order the groupby uses IS calendar
order. -/
theorem monthlyTrend_calendar_order (rows rows2 : List Row)
    (hperm : rows.Perm rows2)
    (hvalid : ∀ r ∈ rows, r.timestamp.year < 10000 ∧ r.timestamp.month < 100) :
    monthlyTrend rows2 = monthlyTrend rows ∧
    ((monthlyTrend rows).map Prod.fst).Pairwise fun a b => parseYM a < parseYM b := by
  have hkeysperm : (rows.map fun r => monthYearStr r.timestamp).Perm
      (rows2.map fun r => monthYearStr r.timestamp) := hperm.map _
  have hkeys : sortedKeys strLe (rows2.map fun r => monthYearStr r.timestamp)
      = sortedKeys strLe (rows.map fun r => monthYearStr r.timestamp) :=
    sortedKeys_eq_of_perm _ _ hkeysperm.symm
  constructor
  · rw [monthlyTrend, monthlyTrend, hkeys]
    apply List.map_congr_left
    intro k _
    have hsum : monthSum rows k = monthSum rows2 k := by
      unfold monthSum
      exact ((hperm.filter _).map _).sum_eq
    rw [hsum]
  · have hmapfst : (monthlyTrend rows).map Prod.fst
        = sortedKeys strLe (rows.map fun r => monthYearStr r.timestamp) := by
      rw [monthlyTrend]
      exact map_fst_keyed _ _
    rw [hmapfst]
    have hnd : ((rows.map fun r => monthYearStr r.timestamp).dedup).Pairwise (· ≠ ·) :=
      List.nodup_dedup _
    have hst := sortBy_pairwise_stable strLe (fun a b : String => a ≠ b)
      strLe_total strLe_trans _ hnd
    refine List.Pairwise.imp_of_mem ?_ hst
    intro a b ha hb hab
    have hmema : a ∈ rows.map fun r => monthYearStr r.timestamp :=
      (mem_sortedKeys _ _ _).mp ha
    have hmemb : b ∈ rows.map fun r => monthYearStr r.timestamp :=
      (mem_sortedKeys _ _ _).mp hb
    rcases List.mem_map.mp hmema with ⟨r1, hr1, rfl⟩
    rcases List.mem_map.mp hmemb with ⟨r2, hr2, rfl⟩
    have hle : monthYearStr r1.timestamp ≤ monthYearStr r2.timestamp := by
      have := hab.1
      simpa [strLe] using this
    have hlt : monthYearStr r1.timestamp < monthYearStr r2.timestamp := by
      by_cases hba : strLe (monthYearStr r2.timestamp) (monthYearStr r1.timestamp) = true
      · exact lt_of_le_of_ne hle (hab.2 hba)
      · refine lt_of_le_not_le hle ?_
        intro hba2
        exact hba (by simpa [strLe] using hba2)
    rw [parseYM_monthYearStr r1.timestamp (hvalid r1 hr1).1 (hvalid r1 hr1).2,
      parseYM_monthYearStr r2.timestamp (hvalid r2 hr2).1 (hvalid r2 hr2).2]
    exact (monthYearStr_lt_iff r1.timestamp r2.timestamp (hvalid r1 hr1).1
      (hvalid r2 hr2).1 (hvalid r1 hr1).2 (hvalid r2 hr2).2).mp hlt

/-- Witness for C2: rows spanning Mar-2024, Jan-2024, Feb-2024 and a
permutation of them give the same trend table, in Jan, Feb, Mar order. -/
theorem monthlyTrend_calendar_order_witness :
    monthlyTrend c2rowsPerm = monthlyTrend c2rows ∧
    ((monthlyTrend c2rows).map Prod.fst).Pairwise fun a b => parseYM a < parseYM b :=
  monthlyTrend_calendar_order c2rows c2rowsPerm (by decide) (by decide)

/-! ## C6: the heatmap has the 7 fixed weekday rows, but only observed hours
as columns -/

theorem dayName_mem (t : Timestamp) : dayName t ∈ days_order := by
  have h7 : dayOfWeekIndex t < 7 := by
    unfold dayOfWeekIndex
    have h1 : 0 ≤ (daysFromCivil t.year t.month t.day + 3) % 7 :=
      Int.emod_nonneg _ (by norm_num)
    have h2 : (daysFromCivil t.year t.month t.day + 3) % 7 < 7 :=
      Int.emod_lt_of_pos _ (by norm_num)
    omega
  unfold dayName
  have hlen : dayOfWeekIndex t < days_order.length := by simpa [days_order] using h7
  rw [List.getD_eq_getElem days_order "" hlen]
  exact List.getElem_mem hlen

/-- C6 (amended).  The heatmap has exactly the 7 weekday rows
Monday..Sunday in that fixed order; its columns are the distinct hours
OBSERVED in the data in ascending order (a subset of 0..23, not always all
24); each present cell is the mean `occupancy_pct` of its (day, hour)
records, and a (day, hour) combination with no records gives a missing
(`none`) cell, never zero. -/
theorem occupancyHeatmapMatrix_shape (rows : List Row) :
    ((occupancyHeatmapMatrix rows).map Prod.fst = days_order) ∧
    (occupancyHeatmapMatrix rows).length = 7 ∧
    (∀ p ∈ occupancyHeatmapMatrix rows, p.2.map Prod.fst = heatCols rows) ∧
    ((heatCols rows).Pairwise fun a b => a < b) ∧
    (∀ h0 ∈ heatCols rows, ∃ r ∈ rows, r.timestamp.hour = h0) ∧
    (∀ r ∈ rows, r.timestamp.hour ∈ heatCols rows) ∧
    (∀ p ∈ occupancyHeatmapMatrix rows, ∀ c ∈ p.2,
      (c.2 = none ↔ cellRows rows p.1 c.1 = []) ∧
      (∀ x, c.2 = some x →
        x = ((cellRows rows p.1 c.1).map fun r => r.occupancy_pct).sum /
            (((cellRows rows p.1 c.1).map fun r => r.occupancy_pct).length : Rat))) := by
  refine ⟨map_fst_keyed _ _, by simp [occupancyHeatmapMatrix, days_order], ?_, ?_, ?_, ?_, ?_⟩
  · intro p hp
    rcases List.mem_map.mp hp with ⟨d, _, rfl⟩
    exact map_fst_keyed _ _
  · have hnd : ((rows.map fun r => r.timestamp.hour).dedup).Pairwise (· ≠ ·) :=
      List.nodup_dedup _
    have hst := sortBy_pairwise_stable natLe (fun a b : Nat => a ≠ b)
      natLe_total natLe_trans _ hnd
    refine hst.imp ?_
    rintro a b ⟨h1, h2⟩
    have hab : a ≤ b := by simpa [natLe] using h1
    by_cases hba : natLe b a = true
    · exact lt_of_le_of_ne hab (h2 hba)
    · refine lt_of_le_not_le hab fun hba2 => hba (by simpa [natLe] using hba2)
  · intro h0 hh0
    have := (mem_sortedKeys _ _ _).mp hh0
    rcases List.mem_map.mp this with ⟨r, hr, rfl⟩
    exact ⟨r, hr, rfl⟩
  · intro r hr
    exact (mem_sortedKeys _ _ _).mpr (List.mem_map_of_mem _ hr)
  · intro p hp c hc
    rcases List.mem_map.mp hp with ⟨d, _, rfl⟩
    rcases List.mem_map.mp hc with ⟨h0, _, rfl⟩
    have hlen2 : ((cellRows rows d h0).map fun r => r.occupancy_pct).length
        = (cellRows rows d h0).length := List.length_map _ _
    constructor
    · unfold heatCell
      by_cases hnil : cellRows rows d h0 = []
      · simp [hnil]
      · have hne : (cellRows rows d h0).length ≠ 0 := by
          simpa [List.length_eq_zero] using hnil
        simp [hlen2, hne, hnil]
    · intro x hx
      unfold heatCell at hx
      by_cases hnil : ((cellRows rows d h0).map fun r => r.occupancy_pct).length = 0
      · rw [if_pos hnil] at hx
        cases hx
      · rw [if_neg hnil] at hx
        exact (Option.some_inj.mp hx).symm

/-- C6 counterexample.  A valid one-record dataset observed only at hour 3
yields the single column 3, not columns 0 through 23 (the row index is still
the full Monday..Sunday list). -/
theorem occupancyHeatmap_columns_only_observed :
    heatCols [c6row] = [3] ∧
    heatCols [c6row] ≠ List.range 24 ∧
    (occupancyHeatmapMatrix [c6row]).map Prod.fst = days_order := by
  refine ⟨by decide, by decide, ?_⟩
  exact map_fst_keyed _ _

/-! ## C7: hourly buckets floor the timestamp and carry the means -/

/-- C7.  The "Hourly" grouping floors every timestamp to the start of its
hour — zero minutes and seconds, all coarser fields kept ("Daily" also
zeroes the hour) — every bucket key of the hourly series has zero minutes
and seconds, and two same-zone rows at 10:15 and 10:45 collapse into the
single bucket 2024-01-01T10:00:00 whose values are the means of the two
standard and the two adjusted setpoints. -/
theorem setpointTimeSeries_hourly_means (z : String) (s1 s2 a1 a2 : Rat) :
    (∀ t : Timestamp, floorHour t = ⟨t.year, t.month, t.day, t.hour, 0, 0⟩ ∧
        floorDay t = ⟨t.year, t.month, t.day, 0, 0, 0⟩) ∧
    (∀ zone rows, ∀ g ∈ setpointTimeSeries "Hourly" zone rows,
        g.1.minute = 0 ∧ g.1.second = 0) ∧
    setpointTimeSeries "Hourly" z [c7row z 15 s1 a1, c7row z 45 s2 a2]
      = [(⟨2024, 1, 1, 10, 0, 0⟩, (s1 + s2) / 2, some ((a1 + a2) / 2))] := by
  refine ⟨fun t => ⟨rfl, rfl⟩, ?_, ?_⟩
  · intro zone rows g hg
    simp only [setpointTimeSeries] at hg
    rcases List.mem_map.mp hg with ⟨k, hk, rfl⟩
    have hk2 := (mem_sortedKeys _ _ _).mp hk
    rcases List.mem_map.mp hk2 with ⟨r, hr, rfl⟩
    have hr2 : r ∈ addTimeGroup "Hourly" rows := (List.mem_filter.mp hr).1
    rcases List.mem_map.mp hr2 with ⟨r0, _, rfl⟩
    simp [tgOf, addTimeGroup, floorHour]
  · simp only [setpointTimeSeries, addTimeGroup, c7row, mkRow, List.map_cons,
      List.map_nil, List.filter_cons, List.filter_nil, beq_self_eq_true, if_true,
      tgOf, floorHour]
    norm_num [sortedKeys, sortBy, insertLe, List.dedup_cons_of_mem,
      List.dedup_cons_of_not_mem, meanRat, meanOpt, List.filterMap_cons,
      List.filterMap_nil]
    intro h1 h2
    exact absurd h1 (by simp)

/-! ## C9: the derived calendar columns -/

/-- C9.  `deriveTimeFields` keeps every row (count and source fields
unchanged) and gives each row `hour`, `day_of_week`, `month_year` and `date`
derived from its timestamp: `day_of_week` is one of the seven full English
weekday names, `month_year` is the 7-character zero-padded "YYYY-MM" label
(with '-' at position 4, decoding back to year*100+month for 4-digit
years), and `date` is the calendar date; on 2024-01-01 the name is "Monday"
and the label "2024-01". -/
theorem deriveTimeFields_fields (rows : List Row) :
    (deriveTimeFields rows).length = rows.length ∧
    ((deriveTimeFields rows).map sourceOf = rows.map sourceOf) ∧
    (∀ r ∈ deriveTimeFields rows,
      r.hour = some r.timestamp.hour ∧
      r.day_of_week = some (dayName r.timestamp) ∧
      dayName r.timestamp ∈ days_order ∧
      r.month_year = some (monthYearStr r.timestamp) ∧
      (monthYearStr r.timestamp).length = 7 ∧
      (monthYearStr r.timestamp).data.getD 4 ' ' = '-' ∧
      (r.timestamp.year < 10000 → r.timestamp.month < 100 →
        parseYM (monthYearStr r.timestamp)
          = r.timestamp.year * 100 + r.timestamp.month) ∧
      r.date = some (dateOf r.timestamp)) ∧
    dayName ⟨2024, 1, 1, 0, 0, 0⟩ = "Monday" ∧
    monthYearStr ⟨2024, 1, 1, 0, 0, 0⟩ = "2024-01" := by
  refine ⟨?_, ?_, ?_, by decide, by decide⟩
  · simp [deriveTimeFields, addDate, addBaseTimeFields]
  · simp only [deriveTimeFields, addDate, addBaseTimeFields, List.map_map]
    rfl
  · intro r hr
    simp only [deriveTimeFields, addDate, addBaseTimeFields, List.map_map] at hr
    rcases List.mem_map.mp hr with ⟨r0, _, rfl⟩
    refine ⟨rfl, rfl, dayName_mem _, rfl, rfl, rfl, ?_, rfl⟩
    intro hy hm
    exact parseYM_monthYearStr _ hy hm

end HVAC
